import Mathlib

/-!
Verification of the proglog record store (internal/log/store.go).

The store wraps a file with a buffered writer and a size counter.  We embed
it shallowly: the backing file and the write buffer are lists of bytes
(natural numbers below 256), positional reads are functions on those lists,
and the uint64 size counter is a natural number maintained modulo 2^64.
-/

namespace Proglog

/-- Number of bytes used to store a record's length (`lenWidth` in store.go). -/
def lenWidth : Nat := 8

/-- Modulus of Go's uint64 arithmetic. -/
def U64 : Nat := 2 ^ 64

/-- Big-endian encoding of a uint64 value into 8 bytes
(`binary.BigEndian.PutUint64`, as invoked by `binary.Write(s.buf, enc, uint64(len(p)))`). -/
def encU64 (n : Nat) : List Nat :=
  [n / 2 ^ 56 % 256, n / 2 ^ 48 % 256, n / 2 ^ 40 % 256, n / 2 ^ 32 % 256,
   n / 2 ^ 24 % 256, n / 2 ^ 16 % 256, n / 2 ^ 8 % 256, n % 256]

/-- Big-endian decoding of a byte list (`enc.Uint64(size)` in store.go). -/
def decU64 (bs : List Nat) : Nat :=
  bs.foldl (fun acc b => acc * 256 + b) 0

/-- The store: backing file contents, bytes sitting in the bufio writer, and
the uint64 `size` counter (store.go lines 31-36).  The split between `file`
and `buf` models which bytes have reached the OS file; `bufio.Writer` may
flush opportunistically, which never changes `file ++ buf`, so we keep all
unflushed bytes in `buf`. -/
structure Store where
  file : List Nat
  buf : List Nat
  size : Nat
deriving Repr, DecidableEq

/-- The logical byte stream of the store: flushed bytes followed by buffered
bytes. -/
def stream (s : Store) : List Nat :=
  s.file ++ s.buf

/-- Creating a store over a file (`newStore`): `size` is initialized from the
file's current length and the write buffer starts empty. -/
def newStore (file : List Nat) : Store :=
  { file := file, buf := [], size := file.length }

/-- Flushing the bufio writer (`s.buf.Flush()`): all buffered bytes move to
the file. -/
def flush (s : Store) : Store :=
  { file := s.file ++ s.buf, buf := [], size := s.size }

/-- Go's `os.File.ReadAt(b, off)` with `len(b) = count` at non-negative
offset `off`: succeeds and fills the whole buffer iff the file holds enough
bytes; a short read surfaces as an error.  A zero-length buffer always
succeeds (the read loop body never runs). -/
def fileReadAt (file : List Nat) (count off : Nat) : Option (List Nat) :=
  if count = 0 then some []
  else if off + count ≤ file.length then some ((file.drop off).take count)
  else none

/-- `store.Append` (store.go lines 60-81): records `pos = s.size`, writes the
8-byte big-endian length header and then the payload into the buffer, and
advances `size` by `w = len(p) + lenWidth` in uint64 arithmetic.  Returns
`(n, pos, updated store)`. -/
def Store.Append (s : Store) (p : List Nat) : Nat × Nat × Store :=
  (p.length + lenWidth, s.size,
    { s with
      buf := s.buf ++ encU64 p.length ++ p,
      size := (s.size + (p.length + lenWidth)) % U64 })

/-- `store.Append` with the two fallible buffered writes made explicit
(`binary.Write` for the header, `s.buf.Write(p)` for the payload): if a
write fails the method returns before `s.size` is advanced.  Returns the
result (`none` on error) together with the store state after the call. -/
def Store.AppendE (s : Store) (p : List Nat) (headerOk payloadOk : Bool) :
    Option (Nat × Nat) × Store :=
  if headerOk = false then (none, s)
  else if payloadOk = false then (none, { s with buf := s.buf ++ encU64 p.length })
  else
    (some (p.length + lenWidth, s.size),
      { s with
        buf := s.buf ++ encU64 p.length ++ p,
        size := (s.size + (p.length + lenWidth)) % U64 })

/-- `store.Read` (store.go lines 84-106): flushes the buffer, reads the
8-byte length header at `pos`, decodes it, then reads that many bytes at
`pos + lenWidth`.  Returns the record (or `none` on a failed positional
read) together with the store state after the call (always the flushed
store). -/
def Store.Read (s : Store) (pos : Nat) : Option (List Nat) × Store :=
  match fileReadAt (flush s).file lenWidth pos with
  | none => (none, flush s)
  | some hdr =>
    match fileReadAt (flush s).file (decU64 hdr) (pos + lenWidth) with
    | none => (none, flush s)
    | some b => (some b, flush s)

/-- `store.ReadAt` (store.go lines 109-118): flushes the buffer, then reads
`count` bytes at signed offset `off` from the file (negative offsets are an
error in `os.File.ReadAt`).  Returns the bytes read together with the store
state after the call. -/
def Store.ReadAt (s : Store) (count : Nat) (off : Int) : Option (List Nat) × Store :=
  if off < 0 then (none, flush s)
  else (fileReadAt (flush s).file count off.toNat, flush s)

/-- `store.Close` (store.go lines 121-130): flushes the buffer, then closes
the file.  The durable on-disk contents after a successful close. -/
def Store.Close (s : Store) : List Nat :=
  (flush s).file

/-- A framed record as written to the stream: 8-byte big-endian length
header followed by the payload. -/
def frame (p : List Nat) : List Nat :=
  encU64 p.length ++ p

/-- The framed stream of a sequence of payloads. -/
def framedStream (ps : List (List Nat)) : List Nat :=
  (ps.map frame).flatten

/-- Total framed length of a sequence of payloads. -/
def framedLen (ps : List (List Nat)) : Nat :=
  (ps.map fun p => lenWidth + p.length).sum

/-- Expected positions when appending payloads in order starting at `pos`:
each record starts `lenWidth + len(previous)` after the previous one. -/
def positionsFrom (pos : Nat) : List (List Nat) → List Nat
  | [] => []
  | p :: ps => pos :: positionsFrom (pos + lenWidth + p.length) ps

/-- Append a sequence of payloads in order, collecting the returned
positions. -/
def appendAll (s : Store) : List (List Nat) → List Nat × Store
  | [] => ([], s)
  | p :: ps =>
    ((s.Append p).2.1 :: (appendAll (s.Append p).2.2 ps).1,
     (appendAll (s.Append p).2.2 ps).2)

/-- One store operation, for stating whole-trace invariants. -/
inductive Op where
  | append (p : List Nat)
  | read (pos : Nat)
  | readAt (count : Nat) (off : Int)
deriving Repr

/-- State transition of one operation (`Read`/`ReadAt` leave the store
flushed whether or not the positional read succeeds). -/
def stepOp (s : Store) : Op → Store
  | .append p => (s.Append p).2.2
  | .read pos => (s.Read pos).2
  | .readAt count off => (s.ReadAt count off).2

/-- Run a sequence of operations. -/
def runOps (s : Store) (ops : List Op) : Store :=
  ops.foldl stepOp s

/-- The 11-byte payload "hello world" of the concrete test scenario. -/
def hw : List Nat :=
  [104, 101, 108, 108, 111, 32, 119, 111, 114, 108, 100]

theorem decU64_encU64 (n : Nat) : decU64 (encU64 n) = n % U64 := by
  simp only [decU64, encU64, List.foldl, U64]
  omega

theorem encU64_length (n : Nat) : (encU64 n).length = lenWidth := rfl

theorem flush_file (s : Store) : (flush s).file = stream s := rfl

theorem stream_flush (s : Store) : stream (flush s) = stream s := by
  simp [stream, flush]

theorem stream_append (s : Store) (p : List Nat) :
    stream (s.Append p).2.2 = stream s ++ frame p := by
  simp [stream, Store.Append, frame]

theorem fileReadAt_of_le {file : List Nat} {count off : Nat}
    (h : off + count ≤ file.length) :
    fileReadAt file count off = some ((file.drop off).take count) := by
  unfold fileReadAt
  by_cases hc : count = 0
  · subst hc; simp
  · rw [if_neg hc, if_pos h]

theorem fileReadAt_header (A B p : List Nat) :
    fileReadAt (A ++ frame p ++ B) lenWidth A.length = some (encU64 p.length) := by
  have hH : A ++ frame p ++ B = A ++ (encU64 p.length ++ (p ++ B)) := by
    simp [frame]
  rw [hH, fileReadAt_of_le (by simp [encU64_length, lenWidth])]
  rw [List.drop_left, List.take_left' (encU64_length p.length)]

theorem fileReadAt_payload (A B p : List Nat) :
    fileReadAt (A ++ frame p ++ B) p.length (A.length + lenWidth) = some p := by
  have hP : A ++ frame p ++ B = (A ++ encU64 p.length) ++ (p ++ B) := by
    simp [frame]
  have hAE : (A ++ encU64 p.length).length = A.length + lenWidth := by
    simp [encU64_length]
  rw [hP, fileReadAt_of_le (by simp [encU64_length]; omega)]
  rw [List.drop_left' hAE, List.take_left' rfl]

theorem read_frame (s : Store) (A B p : List Nat)
    (hs : stream s = A ++ frame p ++ B) (hp : p.length < U64) :
    s.Read A.length = (some p, flush s) := by
  have hfile : (flush s).file = A ++ frame p ++ B := by rw [flush_file, hs]
  have h1 := fileReadAt_header A B p
  have h2 := fileReadAt_payload A B p
  rw [← hfile] at h1 h2
  simp only [Store.Read, h1, decU64_encU64, Nat.mod_eq_of_lt hp, h2]

/-- C1: for every well-formed store state (size equals the logical stream
length) and payload of uint64-representable length, `Append(P)` followed
immediately by `Read` at the returned position succeeds and returns exactly
`P`; the read leaves the store flushed (Read flushes the write buffer before
reading). -/
theorem append_then_read_roundtrip (s : Store) (p : List Nat)
    (hwf : s.size = (stream s).length) (hp : p.length < U64) :
    ((s.Append p).2.2).Read ((s.Append p).2.1) =
      (some p, flush (s.Append p).2.2) := by
  have hpos : (s.Append p).2.1 = (stream s).length := hwf
  rw [hpos]
  exact read_frame _ (stream s) [] p (by rw [stream_append]; simp) hp

/-- Witness for C1 at a concrete store and payload. -/
theorem append_then_read_roundtrip_w :
    ((newStore [7, 7]).Append [1, 2, 3]).2.2.Read
        (((newStore [7, 7]).Append [1, 2, 3]).2.1) =
      (some [1, 2, 3], flush ((newStore [7, 7]).Append [1, 2, 3]).2.2) :=
  append_then_read_roundtrip (newStore [7, 7]) [1, 2, 3] (by decide) (by decide)

theorem framedStream_nil : framedStream [] = [] := rfl

theorem framedStream_cons (p : List Nat) (ps : List (List Nat)) :
    framedStream (p :: ps) = frame p ++ framedStream ps := by
  simp [framedStream]

theorem framedStream_append (a b : List (List Nat)) :
    framedStream (a ++ b) = framedStream a ++ framedStream b := by
  simp [framedStream]

theorem framedLen_cons (p : List Nat) (ps : List (List Nat)) :
    framedLen (p :: ps) = (lenWidth + p.length) + framedLen ps := by
  simp [framedLen]

theorem framedStream_length (ps : List (List Nat)) :
    (framedStream ps).length = framedLen ps := by
  induction ps with
  | nil => rfl
  | cons p ps ih =>
    rw [framedStream_cons, List.length_append, ih, framedLen_cons]
    simp [frame, encU64_length]

theorem appendAll_stream (s : Store) (ps : List (List Nat)) :
    stream (appendAll s ps).2 = stream s ++ framedStream ps := by
  induction ps generalizing s with
  | nil => simp [appendAll, framedStream_nil]
  | cons p ps ih =>
    show stream (appendAll (s.Append p).2.2 ps).2 = _
    rw [ih, stream_append, framedStream_cons, List.append_assoc]

theorem append_size_no_wrap (s : Store) (p : List Nat)
    (h : s.size + (p.length + lenWidth) < U64) :
    ((s.Append p).2.2).size = s.size + (p.length + lenWidth) := by
  show (s.size + (p.length + lenWidth)) % U64 = _
  exact Nat.mod_eq_of_lt h

theorem appendAll_positions_size (ps : List (List Nat)) (s : Store)
    (h : s.size + framedLen ps < U64) :
    (appendAll s ps).1 = positionsFrom s.size ps ∧
    (appendAll s ps).2.size = s.size + framedLen ps := by
  induction ps generalizing s with
  | nil => simp [appendAll, positionsFrom, framedLen]
  | cons p ps ih =>
    rw [framedLen_cons] at h
    have hsz : ((s.Append p).2.2).size = s.size + (p.length + lenWidth) :=
      append_size_no_wrap s p (by omega)
    obtain ⟨ih1, ih2⟩ := ih (s.Append p).2.2 (by rw [hsz]; omega)
    constructor
    · show (s.Append p).2.1 :: (appendAll (s.Append p).2.2 ps).1 = _
      rw [ih1, hsz, positionsFrom]
      have harg : s.size + lenWidth + p.length = s.size + (p.length + lenWidth) := by
        omega
      rw [harg]
      rfl
    · show (appendAll (s.Append p).2.2 ps).2.size = _
      rw [ih2, hsz, framedLen_cons]
      omega

theorem positionsFrom_getD (pos : Nat) (ps : List (List Nat)) (i : Nat)
    (hi : i < ps.length) :
    (positionsFrom pos ps).getD i 0 = pos + framedLen (ps.take i) := by
  induction ps generalizing pos i with
  | nil => simp at hi
  | cons p ps ih =>
    cases i with
    | zero => simp [positionsFrom, framedLen]
    | succ i =>
      show (positionsFrom (pos + lenWidth + p.length) ps).getD i 0 = _
      rw [ih (pos + lenWidth + p.length) i (by simpa using hi)]
      rw [List.take_succ_cons, framedLen_cons]
      omega

theorem framedStream_decomp (ps : List (List Nat)) (i : Nat) (hi : i < ps.length) :
    framedStream ps =
      framedStream (ps.take i) ++ frame (ps.getD i []) ++
        framedStream (ps.drop (i + 1)) := by
  conv_lhs => rw [← List.take_append_drop i ps]
  rw [framedStream_append, List.drop_eq_getElem_cons hi, framedStream_cons]
  rw [List.getD_eq_getElem ps [] hi, List.append_assoc]

/-- C3: a successful `Append(P)` adds to the logical byte stream exactly the
8-byte big-endian encoding of `len(P)` followed by the bytes of `P`, and
nothing else; consequently the stream of a store built from an empty file by
a sequence of appends consists exactly of such framed records. -/
theorem append_framing (s : Store) (p : List Nat) (ps : List (List Nat)) :
    stream (s.Append p).2.2 = stream s ++ (encU64 p.length ++ p) ∧
    stream (appendAll (newStore []) ps).2 = framedStream ps := by
  constructor
  · rw [stream_append, frame]
  · rw [appendAll_stream]
    rfl

/-- C5: a successful `Append(P)` returns `bytesWritten = 8 + len(P)` and
`position` equal to `size` immediately before the call, and (absent uint64
overflow) increases `size` by exactly `bytesWritten` while leaving the file
untouched: the new header and payload sit in the write buffer, so the
bookkeeping is correct before any flush to disk occurs. -/
theorem append_postcondition (s : Store) (p : List Nat)
    (h : s.size + (p.length + lenWidth) < U64) :
    (s.Append p).1 = lenWidth + p.length ∧
    (s.Append p).2.1 = s.size ∧
    ((s.Append p).2.2).size = s.size + (lenWidth + p.length) ∧
    ((s.Append p).2.2).file = s.file ∧
    ((s.Append p).2.2).buf = s.buf ++ (encU64 p.length ++ p) := by
  refine ⟨by show p.length + lenWidth = _; omega, rfl, ?_, rfl, by
    show s.buf ++ encU64 p.length ++ p = _; rw [List.append_assoc]⟩
  rw [append_size_no_wrap s p h]
  omega

/-- Witness for C5 at a concrete store and payload. -/
theorem append_postcondition_w :
    ((newStore [5]).Append [9, 8]).1 = lenWidth + ([9, 8] : List Nat).length ∧
    ((newStore [5]).Append [9, 8]).2.1 = (newStore [5]).size ∧
    (((newStore [5]).Append [9, 8]).2.2).size =
      (newStore [5]).size + (lenWidth + ([9, 8] : List Nat).length) ∧
    (((newStore [5]).Append [9, 8]).2.2).file = (newStore [5]).file ∧
    (((newStore [5]).Append [9, 8]).2.2).buf =
      (newStore [5]).buf ++ (encU64 ([9, 8] : List Nat).length ++ [9, 8]) :=
  append_postcondition (newStore [5]) [9, 8] (by decide)

theorem appendAll_read_at_take (ps : List (List Nat))
    (hlen : ∀ p ∈ ps, p.length < U64) (i : Nat) (hi : i < ps.length) :
    (appendAll (newStore []) ps).2.Read (framedLen (ps.take i)) =
      (some (ps.getD i []), flush (appendAll (newStore []) ps).2) := by
  have hstream : stream (appendAll (newStore []) ps).2 =
      framedStream (ps.take i) ++ frame (ps.getD i []) ++
        framedStream (ps.drop (i + 1)) := by
    rw [appendAll_stream, show stream (newStore []) = [] from rfl,
      List.nil_append]
    exact framedStream_decomp ps i hi
  have hp : (ps.getD i []).length < U64 := by
    apply hlen
    rw [List.getD_eq_getElem ps [] hi]
    exact List.getElem_mem hi
  have := read_frame (appendAll (newStore []) ps).2
    (framedStream (ps.take i)) (framedStream (ps.drop (i + 1)))
    (ps.getD i []) hstream hp
  rwa [framedStream_length] at this

/-- C2: appending payloads P1..Pn in order to a store over an empty file
returns positions pos[0]=0, pos[i]=pos[i-1]+8+len(P[i-1]) (absent uint64
overflow), leaves size equal to the total framed length, and Read at each
pos[i] returns P[i].  Instantiated at three "hello world" payloads this
gives positions 0, 19, 38 and size 57 (see the witness). -/
theorem sequential_accounting (ps : List (List Nat))
    (hlen : ∀ p ∈ ps, p.length < U64) (htot : framedLen ps < U64) :
    (appendAll (newStore []) ps).1 = positionsFrom 0 ps ∧
    (appendAll (newStore []) ps).2.size = framedLen ps ∧
    ∀ i, i < ps.length →
      (appendAll (newStore []) ps).2.Read ((positionsFrom 0 ps).getD i 0) =
        (some (ps.getD i []), flush (appendAll (newStore []) ps).2) := by
  have h0 : (newStore ([] : List Nat)).size = 0 := rfl
  obtain ⟨h1, h2⟩ := appendAll_positions_size ps (newStore [])
    (by show 0 + framedLen ps < U64; omega)
  rw [h0] at h1 h2
  refine ⟨h1, by rw [h2]; omega, ?_⟩
  intro i hi
  rw [positionsFrom_getD 0 ps i hi, Nat.zero_add]
  exact appendAll_read_at_take ps hlen i hi

/-- Witness for C2: the concrete "hello world" scenario — three appends of
the 11-byte payload yield positions 0, 19, 38, final size 57, and reading
at position 19 returns the payload. -/
theorem sequential_accounting_w :
    (appendAll (newStore []) [hw, hw, hw]).1 = [0, 19, 38] ∧
    (appendAll (newStore []) [hw, hw, hw]).2.size = 57 ∧
    (appendAll (newStore []) [hw, hw, hw]).2.Read 19 =
      (some hw, flush (appendAll (newStore []) [hw, hw, hw]).2) := by
  obtain ⟨h1, h2, h3⟩ := sequential_accounting [hw, hw, hw] (by decide) (by decide)
  refine ⟨by rw [h1]; rfl, by rw [h2]; rfl, ?_⟩
  have h := h3 1 (by decide)
  exact h

/-- C4: after appending payloads and closing (which flushes the buffer), a
new store over the resulting file starts with size equal to the file's
length; Read at each position returned by the original appends yields the
original payload, and the next Append returns a position equal to the
file's length at close. -/
theorem restart_recovery (ps : List (List Nat)) (q : List Nat)
    (hlen : ∀ p ∈ ps, p.length < U64) (htot : framedLen ps < U64) :
    (newStore (Store.Close (appendAll (newStore []) ps).2)).size =
      (Store.Close (appendAll (newStore []) ps).2).length ∧
    (∀ i, i < ps.length →
      (newStore (Store.Close (appendAll (newStore []) ps).2)).Read
          ((appendAll (newStore []) ps).1.getD i 0) =
        (some (ps.getD i []),
          flush (newStore (Store.Close (appendAll (newStore []) ps).2)))) ∧
    ((newStore (Store.Close (appendAll (newStore []) ps).2)).Append q).2.1 =
      (Store.Close (appendAll (newStore []) ps).2).length := by
  have h0 : (newStore ([] : List Nat)).size = 0 := rfl
  obtain ⟨hpos, _⟩ := appendAll_positions_size ps (newStore [])
    (by show 0 + framedLen ps < U64; omega)
  rw [h0] at hpos
  refine ⟨rfl, ?_, rfl⟩
  intro i hi
  have hfile : Store.Close (appendAll (newStore []) ps).2 = framedStream ps := by
    show stream (appendAll (newStore []) ps).2 = _
    rw [appendAll_stream]
    rfl
  have hstream : stream (newStore (Store.Close (appendAll (newStore []) ps).2)) =
      framedStream (ps.take i) ++ frame (ps.getD i []) ++
        framedStream (ps.drop (i + 1)) := by
    show Store.Close (appendAll (newStore []) ps).2 ++ [] = _
    rw [List.append_nil, hfile]
    exact framedStream_decomp ps i hi
  have hp : (ps.getD i []).length < U64 := by
    apply hlen
    rw [List.getD_eq_getElem ps [] hi]
    exact List.getElem_mem hi
  have hr := read_frame (newStore (Store.Close (appendAll (newStore []) ps).2))
    (framedStream (ps.take i)) (framedStream (ps.drop (i + 1)))
    (ps.getD i []) hstream hp
  rw [framedStream_length] at hr
  rw [hpos, positionsFrom_getD 0 ps i hi, Nat.zero_add]
  exact hr

/-- Witness for C4 at two concrete payloads and a follow-up append. -/
theorem restart_recovery_w :
    (newStore (Store.Close (appendAll (newStore []) [[1], [2, 3]]).2)).size =
      (Store.Close (appendAll (newStore []) [[1], [2, 3]]).2).length ∧
    (newStore (Store.Close (appendAll (newStore []) [[1], [2, 3]]).2)).Read
        ((appendAll (newStore []) [[1], [2, 3]]).1.getD 0 0) =
      (some (([[1], [2, 3]] : List (List Nat)).getD 0 []),
        flush (newStore (Store.Close (appendAll (newStore []) [[1], [2, 3]]).2))) ∧
    (newStore (Store.Close (appendAll (newStore []) [[1], [2, 3]]).2)).Read
        ((appendAll (newStore []) [[1], [2, 3]]).1.getD 1 0) =
      (some (([[1], [2, 3]] : List (List Nat)).getD 1 []),
        flush (newStore (Store.Close (appendAll (newStore []) [[1], [2, 3]]).2))) ∧
    ((newStore (Store.Close (appendAll (newStore []) [[1], [2, 3]]).2)).Append [9]).2.1 =
      (Store.Close (appendAll (newStore []) [[1], [2, 3]]).2).length :=
  ⟨(restart_recovery [[1], [2, 3]] [9] (by decide) (by decide)).1,
   (restart_recovery [[1], [2, 3]] [9] (by decide) (by decide)).2.1 0 (by decide),
   (restart_recovery [[1], [2, 3]] [9] (by decide) (by decide)).2.1 1 (by decide),
   (restart_recovery [[1], [2, 3]] [9] (by decide) (by decide)).2.2⟩

theorem Read_snd (s : Store) (pos : Nat) : (s.Read pos).2 = flush s := by
  unfold Store.Read
  cases fileReadAt (flush s).file lenWidth pos with
  | none => rfl
  | some hdr =>
    dsimp only
    cases fileReadAt (flush s).file (decU64 hdr) (pos + lenWidth) <;> rfl

theorem ReadAt_snd (s : Store) (count : Nat) (off : Int) :
    (s.ReadAt count off).2 = flush s := by
  unfold Store.ReadAt
  split <;> rfl

theorem runOps_size_mod (ops : List Op) (s : Store)
    (h : s.size = (stream s).length % U64) :
    (runOps s ops).size = (stream (runOps s ops)).length % U64 := by
  induction ops generalizing s with
  | nil => exact h
  | cons op ops ih =>
    refine ih (stepOp s op) ?_
    cases op with
    | append p =>
      show ((s.Append p).2.2).size = (stream (s.Append p).2.2).length % U64
      rw [stream_append]
      show (s.size + (p.length + lenWidth)) % U64 = _
      rw [h, List.length_append]
      have hf : (frame p).length = lenWidth + p.length := by
        simp [frame, encU64_length]
      rw [hf]
      simp only [U64]
      omega
    | read pos =>
      show ((s.Read pos).2).size = (stream (s.Read pos).2).length % U64
      rw [Read_snd, stream_flush]
      exact h
    | readAt count off =>
      show ((s.ReadAt count off).2).size = (stream (s.ReadAt count off).2).length % U64
      rw [ReadAt_snd, stream_flush]
      exact h

/-- C6: for every sequence of operations on a store constructed over an
empty file, `size` equals the length of the logical framed stream (flushed
file plus write buffer) as long as that length fits in a uint64; and
neither `Read` nor `ReadAt` ever changes `size` — only `Append` does. -/
theorem size_invariant :
    (∀ ops : List Op,
        (stream (runOps (newStore []) ops)).length < U64 →
        (runOps (newStore []) ops).size = (stream (runOps (newStore []) ops)).length) ∧
    (∀ (s : Store) (pos : Nat), ((s.Read pos).2).size = s.size) ∧
    (∀ (s : Store) (count : Nat) (off : Int), ((s.ReadAt count off).2).size = s.size) := by
  refine ⟨?_, ?_, ?_⟩
  · intro ops h
    have h0 : (newStore ([] : List Nat)).size = (stream (newStore [])).length % U64 := by
      show 0 = 0 % U64
      simp
    rw [runOps_size_mod ops (newStore []) h0, Nat.mod_eq_of_lt h]
  · intro s pos
    rw [Read_snd]
    rfl
  · intro s count off
    rw [ReadAt_snd]
    rfl

/-- Witness for C6 at a concrete operation sequence (an append followed by
a read). -/
theorem size_invariant_w :
    (runOps (newStore []) [Op.append [1, 2], Op.read 0]).size =
      (stream (runOps (newStore []) [Op.append [1, 2], Op.read 0])).length :=
  size_invariant.1 [Op.append [1, 2], Op.read 0] (by decide)

/-- C7: for a record `P` framed at position `|A|` of the logical stream,
`ReadAt` of 8 bytes at that offset returns the big-endian encoding of
`len(P)`, and `ReadAt` of `len(P)` bytes at offset `|A| + 8` returns `P`;
both calls flush the write buffer first (the resulting store is the flushed
store). -/
theorem readAt_partial (s : Store) (A B p : List Nat)
    (hs : stream s = A ++ frame p ++ B) :
    s.ReadAt lenWidth (A.length : Int) = (some (encU64 p.length), flush s) ∧
    s.ReadAt p.length ((A.length : Int) + (lenWidth : Int)) = (some p, flush s) := by
  have hfile : (flush s).file = A ++ frame p ++ B := by rw [flush_file, hs]
  constructor
  · unfold Store.ReadAt
    rw [if_neg (by omega)]
    rw [show (A.length : Int).toNat = A.length from rfl, hfile,
      fileReadAt_header A B p]
  · unfold Store.ReadAt
    rw [if_neg (by omega)]
    have hoff : ((A.length : Int) + (lenWidth : Int)).toNat = A.length + lenWidth := by
      omega
    rw [hoff, hfile, fileReadAt_payload A B p]

/-- Witness for C7 at a concrete store holding one framed record. -/
theorem readAt_partial_w :
    (newStore (frame [5, 6])).ReadAt lenWidth ((List.length ([] : List Nat) : Int)) =
      (some (encU64 ([5, 6] : List Nat).length), flush (newStore (frame [5, 6]))) ∧
    (newStore (frame [5, 6])).ReadAt ([5, 6] : List Nat).length
        ((List.length ([] : List Nat) : Int) + (lenWidth : Int)) =
      (some [5, 6], flush (newStore (frame [5, 6]))) :=
  readAt_partial (newStore (frame [5, 6])) [] [] [5, 6] (by simp [stream, newStore])

/-- C8: `Read(pos)` fails exactly when the positional reads fail: either the
8-byte header at `pos` lies beyond the flushed stream, or the decoded header
length exceeds the remaining data (short read).  There is no other failure
mode, and failures are I/O failures of the read primitive, not structured
validation errors. -/
theorem read_error_iff (s : Store) (pos : Nat) :
    (s.Read pos).1 = none ↔
      ((stream s).length < pos + lenWidth ∨
        (stream s).length <
          pos + lenWidth + decU64 (((stream s).drop pos).take lenWidth)) := by
  have hfile : (flush s).file = stream s := rfl
  by_cases hA : pos + lenWidth ≤ (stream s).length
  · have h1 : fileReadAt (flush s).file lenWidth pos =
        some (((stream s).drop pos).take lenWidth) := by
      rw [hfile, fileReadAt_of_le hA]
    by_cases hv0 : decU64 (((stream s).drop pos).take lenWidth) = 0
    · have h2 : fileReadAt (flush s).file
          (decU64 (((stream s).drop pos).take lenWidth)) (pos + lenWidth) = some [] := by
        rw [hv0]
        unfold fileReadAt
        simp
      simp only [Store.Read, h1, h2]
      simp
      omega
    · by_cases hB : pos + lenWidth + decU64 (((stream s).drop pos).take lenWidth) ≤
          (stream s).length
      · have h2 : fileReadAt (flush s).file
            (decU64 (((stream s).drop pos).take lenWidth)) (pos + lenWidth) =
            some (((stream s).drop (pos + lenWidth)).take
              (decU64 (((stream s).drop pos).take lenWidth))) := by
          rw [hfile, fileReadAt_of_le hB]
        simp only [Store.Read, h1, h2]
        simp
        omega
      · have h2 : fileReadAt (flush s).file
            (decU64 (((stream s).drop pos).take lenWidth)) (pos + lenWidth) = none := by
          rw [hfile]
          unfold fileReadAt
          rw [if_neg hv0, if_neg (by omega)]
        simp only [Store.Read, h1, h2]
        simp
        omega
  · have h1 : fileReadAt (flush s).file lenWidth pos = none := by
      rw [hfile]
      unfold fileReadAt
      rw [if_neg (by simp [lenWidth]), if_neg (by omega)]
    simp only [Store.Read, h1]
    simp
    omega

/-- C10: if an `Append` fails (either the buffered header write or the
buffered payload write returns an error), the `size` counter is unchanged:
it is advanced only after both writes succeed, so a failed append never
leaves `size` past unwritten bytes. -/
theorem append_error_keeps_size (s : Store) (p : List Nat)
    (headerOk payloadOk : Bool)
    (h : (s.AppendE p headerOk payloadOk).1 = none) :
    ((s.AppendE p headerOk payloadOk).2).size = s.size := by
  unfold Store.AppendE at h ⊢
  by_cases h1 : headerOk = false
  · simp [h1]
  · by_cases h2 : payloadOk = false
    · simp [h1, h2]
    · simp [h1, h2] at h

/-- Witness for C10 at a concrete failing append (header write fails). -/
theorem append_error_keeps_size_w :
    (((newStore [1]).AppendE [4, 5] false true).2).size = (newStore [1]).size :=
  append_error_keeps_size (newStore [1]) [4, 5] false true (by decide)

end Proglog
